import Mathlib

/-!
Shallow embedding of the streaming-response accumulation / usage-accounting
pipeline (`azure_chat/client.py`, `AzureClient.get_streaming_response`) and of
the local conversation-history store (`azure_chat/history.py`, `ChatHistory`).

External effects are made explicit parameters:
  * the streamed chunk sequence is a `List Chunk` followed by an optional
    transport error raised while opening or consuming the stream;
  * wall-clock elapsed time is a rational parameter `elapsed`;
  * the fallback usage probe outcome is `Except String (Option Usage)`
    (an exception, or a non-streaming response with an optional usage block);
  * `str(messages)` (Python serialization used by the estimator) is an opaque
    string parameter `msgsStr`;
  * text printed to the display sink is collected in an `emitted` list.
-/

namespace AzureChat

/-- A provider usage block `{prompt_tokens, completion_tokens, total_tokens}`. -/
structure Usage where
  prompt_tokens : Nat
  completion_tokens : Nat
  total_tokens : Nat
deriving DecidableEq

/-- The `delta` of a streamed choice: `delta.content` is `None` or a string. -/
structure Delta where
  content : Option String
deriving DecidableEq

/-- One streamed chunk: a `choices` list and an optional `usage` block. -/
structure Chunk where
  choices : List Delta
  usage : Option Usage
deriving DecidableEq

/-- `models.py` `ChatResponse`, fields as in the source (counts start at 0). -/
structure ChatResponse where
  content : String
  prompt_tokens : Nat
  completion_tokens : Nat
  total_tokens : Nat
  total_chars : Nat
  elapsed_time : Rat
  print_rate : Rat
  token_rate : Rat
deriving DecidableEq

/-- The effective content delta of a chunk inside the streaming loop:
`chunk.choices` must be non-empty, and `delta.content` must be truthy in
Python (neither `None` nor the empty string). -/
def chunkDelta (c : Chunk) : Option String :=
  match c.choices with
  | [] => none
  | d :: _ =>
    match d.content with
    | none => none
    | some s => if s = "" then none else some s

/-- Loop state of the streaming `for chunk in stream_response` loop:
accumulated `response.content`, running `total_chars`, and the list of
strings printed to the display sink, in order. -/
structure Accum where
  content : String
  total_chars : Nat
  emitted : List String
deriving DecidableEq

/-- One iteration of the streaming loop on the accumulation state. -/
def stepChunk (a : Accum) (c : Chunk) : Accum :=
  match chunkDelta c with
  | none => a
  | some s => ⟨a.content ++ s, a.total_chars + s.length, a.emitted ++ [s]⟩

/-- The whole streaming loop: fold `stepChunk` over the chunks. -/
def accumChunks (cs : List Chunk) : Accum :=
  cs.foldl stepChunk ⟨"", 0, []⟩

/-- The usage block read from `last_chunk` after the loop (`None` when the
stream was empty or the last chunk carried no usage). -/
def streamUsage (cs : List Chunk) : Option Usage :=
  match cs.getLast? with
  | some c => c.usage
  | none => none

/-- `response.total_tokens` right after the method-1 adoption step: the last
chunk's `total_tokens` when a usage block is present, otherwise the initial 0.
The fallback probe fires exactly when this is 0. -/
def adoptedTotal (cs : List Chunk) : Nat :=
  match streamUsage cs with
  | some u => u.total_tokens
  | none => 0

/-- The success path of `AzureClient.get_streaming_response`: the stream
yielded the chunks `cs` and was exhausted without error.  `msgsStr` is
`str(messages)`, `elapsed` the measured wall-clock time, `probe` the outcome
of the fallback non-streaming usage call (consulted only when the adopted
`total_tokens` is 0). -/
def runStream (msgsStr : String) (elapsed : Rat)
    (cs : List Chunk) (probe : Except String (Option Usage)) : ChatResponse :=
  let a := accumChunks cs
  let r0 : ChatResponse :=
    { content := a.content
      prompt_tokens := 0
      completion_tokens := 0
      total_tokens := 0
      total_chars := a.total_chars
      elapsed_time := elapsed
      print_rate := if 0 < elapsed then (a.total_chars : Rat) / elapsed else 0
      token_rate := 0 }
  let r1 : ChatResponse :=
    match streamUsage cs with
    | some u =>
      { r0 with
        prompt_tokens := u.prompt_tokens
        completion_tokens := u.completion_tokens
        total_tokens := u.total_tokens
        token_rate :=
          if 0 < elapsed then (u.completion_tokens : Rat) / elapsed else 0 }
    | none => r0
  if r1.total_tokens = 0 then
    match probe with
    | .ok (some pu) =>
      let ct := r1.content.length / 4
      { r1 with
        prompt_tokens := pu.prompt_tokens
        completion_tokens := ct
        total_tokens := pu.prompt_tokens + ct
        token_rate := if 0 < elapsed then (ct : Rat) / elapsed else 0 }
    | .ok none => r1
    | .error _ =>
      let pt := msgsStr.length / 4
      let ct := r1.content.length / 4
      { r1 with
        prompt_tokens := pt
        completion_tokens := ct
        total_tokens := pt + ct
        token_rate := if 0 < elapsed then (ct : Rat) / elapsed else 0 }
  else r1

/-- Observable outcome of one `get_streaming_response` call: the returned
response or the propagated exception, the text shown to the display sink,
and whether the fallback probe was issued. -/
structure StreamOutcome where
  result : Except String ChatResponse
  emitted : List String
  probeCalled : Bool

/-- `AzureClient.get_streaming_response`.  `chunks` are the fragments the
stream delivered before `streamErr` (if any) was raised; a raised stream
error reaches the outer `except` clause, which re-raises it, while the inner
`try` around the probe confines probe failures to the estimation fallback. -/
def get_streaming_response (msgsStr : String) (elapsed : Rat)
    (chunks : List Chunk) (streamErr : Option String)
    (probe : Except String (Option Usage)) : StreamOutcome :=
  match streamErr with
  | some e => ⟨.error e, (accumChunks chunks).emitted, false⟩
  | none =>
    ⟨.ok (runStream msgsStr elapsed chunks probe),
     (accumChunks chunks).emitted,
     adoptedTotal chunks == 0⟩

/-- The first choice's `delta.content` of a chunk, when the chunk has
choices and the delta has content (possibly the empty string). -/
def rawDelta (c : Chunk) : Option String :=
  match c.choices with
  | [] => none
  | d :: _ => d.content

/-- The content deltas `c1..cn` of a fragment sequence: the first choice's
`delta.content` of every chunk that has one (empty strings included). -/
def contentDeltas (cs : List Chunk) : List String :=
  cs.filterMap rawDelta

/-- Left-to-right concatenation of a list of strings. -/
def concatStrs : List String → String
  | [] => ""
  | s :: rest => s ++ concatStrs rest

/-! ### History store (`azure_chat/history.py`, `ChatHistory`)

The on-disk file is modelled by `FileState`: absent, unparsable, or a JSON
array of entries.  `save_session` and `load_history` are state transformers /
observers over that model; timestamps are opaque strings supplied by the
caller (the code reads the wall clock). -/

/-- A message carrying a `role` and a `content`, the shape `save_session`
serializes and every stored message has. -/
structure HMessage where
  role : String
  content : String
deriving DecidableEq

/-- One persisted history entry: `{"timestamp": ..., "messages": [...]}`. -/
structure HistoryEntry where
  timestamp : String
  messages : List HMessage
deriving DecidableEq

/-- The states of the history file: missing, not valid JSON, or a JSON array
of entries (the only shape the store itself ever writes). -/
inductive FileState where
  | missing
  | corrupt
  | entries (l : List HistoryEntry)
deriving DecidableEq

/-- The shared read step (`json.load` with `JSONDecodeError`/`FileNotFoundError`
handled as an empty list). -/
def readHistory : FileState → List HistoryEntry
  | .missing => []
  | .corrupt => []
  | .entries l => l

/-- `ChatHistory.load_history`. -/
def load_history (st : FileState) : List HistoryEntry :=
  readHistory st

/-- The serialization loop of `save_session`: keep only `(role, content)` of
every message (each modelled message carries both, so none is dropped). -/
def simplifyMessages (msgs : List HMessage) : List HMessage :=
  msgs.map fun m => ⟨m.role, m.content⟩

/-- `ChatHistory.save_session`: skip conversations with at most the system
message, otherwise read the store (parse failure or absence as empty), append
the timestamped serialized conversation, and rewrite the whole array. -/
def save_session (ts : String) (msgs : List HMessage) (st : FileState) :
    FileState :=
  if msgs.length ≤ 1 then st
  else .entries (readHistory st ++ [⟨ts, simplifyMessages msgs⟩])

/-- Boolean prefix test on character lists. -/
def prefAt : List Char → List Char → Bool
  | [], _ => true
  | _ :: _, [] => false
  | a :: as, b :: bs => a == b && prefAt as bs

/-- Boolean contiguous-substring test on character lists (Python `in`). -/
def substrAt (needle hay : List Char) : Bool :=
  (List.range (hay.length + 1)).any fun n => prefAt needle (hay.drop n)

/-- Python `str.lower()`: lowercase the string character by character. -/
def lowerData (s : String) : List Char :=
  s.data.map Char.toLower

/-- `keyword.lower() in content.lower()`. -/
def containsCI (content keyword : String) : Bool :=
  substrAt (lowerData keyword) (lowerData content)

/-- The search loop of `search_history`: walk the entries with their indices;
an entry contributes `(index, timestamp)` once when some message's content
contains the keyword case-insensitively (the inner loop `break`s after the
first match). -/
def searchLoop (keyword : String) : Nat → List HistoryEntry → List (Nat × String)
  | _, [] => []
  | i, s :: rest =>
    if s.messages.any fun m => containsCI m.content keyword then
      (i, s.timestamp) :: searchLoop keyword (i + 1) rest
    else
      searchLoop keyword (i + 1) rest

/-- The result list `results` computed by `ChatHistory.search_history` over a
loaded history. -/
def search_history (keyword : String) (history : List HistoryEntry) :
    List (Nat × String) :=
  searchLoop keyword 0 history

/-! ### Helper lemmas about the streaming loop -/

lemma chunkDelta_eq_rawDelta (c : Chunk) :
    chunkDelta c = (rawDelta c).bind fun s => if s = "" then none else some s := by
  obtain ⟨ch, u⟩ := c
  cases ch with
  | nil => rfl
  | cons d ds => cases hc : d.content <;> simp [chunkDelta, rawDelta, hc]

lemma foldl_stepChunk (cs : List Chunk) (a : Accum) :
    cs.foldl stepChunk a =
      ⟨a.content ++ concatStrs (cs.filterMap chunkDelta),
       a.total_chars + ((cs.filterMap chunkDelta).map String.length).sum,
       a.emitted ++ cs.filterMap chunkDelta⟩ := by
  induction cs generalizing a with
  | nil =>
    obtain ⟨x, y, z⟩ := a
    simp [concatStrs, String.append_empty]
  | cons c cs ih =>
    rcases h : chunkDelta c with _ | s
    · simp only [List.foldl_cons, stepChunk, h, List.filterMap_cons_none h]
      exact ih a
    · simp only [List.foldl_cons, stepChunk, h, List.filterMap_cons_some h]
      rw [ih]
      simp [concatStrs, String.append_assoc, Nat.add_assoc, List.sum_cons]

lemma accumChunks_eq (cs : List Chunk) :
    accumChunks cs =
      ⟨concatStrs (cs.filterMap chunkDelta),
       ((cs.filterMap chunkDelta).map String.length).sum,
       cs.filterMap chunkDelta⟩ := by
  rw [accumChunks, foldl_stepChunk]
  simp [String.empty_append]

lemma filterMap_chunkDelta (cs : List Chunk) :
    cs.filterMap chunkDelta = (contentDeltas cs).filter fun s => s ≠ "" := by
  induction cs with
  | nil => rfl
  | cons c cs ih =>
    rcases h : rawDelta c with _ | s
    · have h' : chunkDelta c = none := by
        rw [chunkDelta_eq_rawDelta, h]; rfl
      simp only [contentDeltas] at ih ⊢
      rw [List.filterMap_cons_none h', List.filterMap_cons_none h, ih]
    · by_cases hs : s = ""
      · have h' : chunkDelta c = none := by
          rw [chunkDelta_eq_rawDelta, h]; simp [hs]
        simp only [contentDeltas] at ih ⊢
        rw [List.filterMap_cons_none h', List.filterMap_cons_some h, ih]
        simp [hs]
      · have h' : chunkDelta c = some s := by
          rw [chunkDelta_eq_rawDelta, h]; simp [hs]
        simp only [contentDeltas] at ih ⊢
        rw [List.filterMap_cons_some h', List.filterMap_cons_some h, ih]
        simp [hs]

lemma concatStrs_filter_ne (l : List String) :
    concatStrs (l.filter fun s => s ≠ "") = concatStrs l := by
  simp only [ne_eq, decide_not]
  induction l with
  | nil => rfl
  | cons s l ih =>
    by_cases hs : s = ""
    · subst hs
      simpa [concatStrs, String.empty_append] using ih
    · simp [concatStrs, hs, ih]

lemma sum_length_filter_ne (l : List String) :
    (((l.filter fun s => s ≠ "").map String.length)).sum
      = (l.map String.length).sum := by
  simp only [ne_eq, decide_not]
  induction l with
  | nil => rfl
  | cons s l ih =>
    by_cases hs : s = ""
    · subst hs
      simpa using ih
    · simp [hs, ih]

lemma accumChunks_content (cs : List Chunk) :
    (accumChunks cs).content = concatStrs (contentDeltas cs) := by
  rw [accumChunks_eq, filterMap_chunkDelta]
  exact concatStrs_filter_ne _

lemma accumChunks_total_chars (cs : List Chunk) :
    (accumChunks cs).total_chars = ((contentDeltas cs).map String.length).sum := by
  rw [accumChunks_eq, filterMap_chunkDelta]
  exact sum_length_filter_ne _

lemma accumChunks_emitted (cs : List Chunk) :
    (accumChunks cs).emitted = (contentDeltas cs).filter fun s => s ≠ "" := by
  rw [accumChunks_eq, filterMap_chunkDelta]

/-! ### Helper lemmas about `runStream` -/

lemma runStream_content (msgsStr : String) (el : Rat) (cs : List Chunk)
    (probe : Except String (Option Usage)) :
    (runStream msgsStr el cs probe).content = (accumChunks cs).content := by
  rcases hu : streamUsage cs with _ | u <;>
    simp only [runStream, hu] <;>
    split <;> (try split) <;> rfl

lemma runStream_total_chars (msgsStr : String) (el : Rat) (cs : List Chunk)
    (probe : Except String (Option Usage)) :
    (runStream msgsStr el cs probe).total_chars = (accumChunks cs).total_chars := by
  rcases hu : streamUsage cs with _ | u <;>
    simp only [runStream, hu] <;>
    split <;> (try split) <;> rfl

lemma runStream_probe_ok_some (msgsStr : String) (el : Rat) (cs : List Chunk)
    (pu : Usage) (h : adoptedTotal cs = 0) :
    (runStream msgsStr el cs (.ok (some pu))).prompt_tokens = pu.prompt_tokens
    ∧ (runStream msgsStr el cs (.ok (some pu))).completion_tokens
        = (accumChunks cs).content.length / 4
    ∧ (runStream msgsStr el cs (.ok (some pu))).total_tokens
        = pu.prompt_tokens + (accumChunks cs).content.length / 4 := by
  rcases hu : streamUsage cs with _ | u
  · simp only [runStream, hu]
    refine ⟨?_, ?_, ?_⟩ <;> simp
  · have ht : u.total_tokens = 0 := by
      simpa [adoptedTotal, hu] using h
    simp only [runStream, hu, ht]
    refine ⟨?_, ?_, ?_⟩ <;> simp

lemma runStream_probe_error (msgsStr : String) (el : Rat) (cs : List Chunk)
    (e : String) (h : adoptedTotal cs = 0) :
    (runStream msgsStr el cs (.error e)).prompt_tokens = msgsStr.length / 4
    ∧ (runStream msgsStr el cs (.error e)).completion_tokens
        = (accumChunks cs).content.length / 4
    ∧ (runStream msgsStr el cs (.error e)).total_tokens
        = msgsStr.length / 4 + (accumChunks cs).content.length / 4 := by
  rcases hu : streamUsage cs with _ | u
  · simp only [runStream, hu]
    refine ⟨?_, ?_, ?_⟩ <;> simp
  · have ht : u.total_tokens = 0 := by
      simpa [adoptedTotal, hu] using h
    simp only [runStream, hu, ht]
    refine ⟨?_, ?_, ?_⟩ <;> simp

lemma runStream_probe_ok_none (msgsStr : String) (el : Rat) (cs : List Chunk)
    (u : Usage) (hu : streamUsage cs = some u) (ht : u.total_tokens = 0) :
    (runStream msgsStr el cs (.ok none)).prompt_tokens = u.prompt_tokens
    ∧ (runStream msgsStr el cs (.ok none)).completion_tokens = u.completion_tokens
    ∧ (runStream msgsStr el cs (.ok none)).total_tokens = u.total_tokens := by
  simp only [runStream, hu, ht]
  refine ⟨?_, ?_, ?_⟩ <;> simp

lemma runStream_usage_ne_zero (msgsStr : String) (el : Rat) (cs : List Chunk)
    (probe : Except String (Option Usage)) (u : Usage)
    (hu : streamUsage cs = some u) (ht : u.total_tokens ≠ 0) :
    (runStream msgsStr el cs probe).prompt_tokens = u.prompt_tokens
    ∧ (runStream msgsStr el cs probe).completion_tokens = u.completion_tokens
    ∧ (runStream msgsStr el cs probe).total_tokens = u.total_tokens := by
  simp only [runStream, hu, if_neg ht]
  refine ⟨?_, ?_, ?_⟩ <;> simp

/-! ### Helper lemmas about the history search -/

lemma containsCI_empty (c : String) : containsCI c "" = true := by
  have h : lowerData "" = [] := rfl
  rw [containsCI, h, substrAt]
  refine List.any_eq_true.mpr ⟨0, ?_, rfl⟩
  exact List.mem_range.mpr (Nat.succ_pos _)

lemma any_containsCI_empty (msgs : List HMessage) :
    (msgs.any fun m => containsCI m.content "") = true ↔ msgs ≠ [] := by
  cases msgs with
  | nil => simp
  | cons m rest => simp [containsCI_empty]

lemma searchLoop_mem (k : String) (hist : List HistoryEntry) :
    ∀ (start i : Nat) (ts : String),
      ((i, ts) ∈ searchLoop k start hist) ↔
        ∃ j s, hist[j]? = some s ∧ i = start + j ∧ ts = s.timestamp
          ∧ (s.messages.any fun m => containsCI m.content k) = true := by
  induction hist with
  | nil =>
    intro start i ts
    simp [searchLoop]
  | cons s rest ih =>
    intro start i ts
    by_cases hm : (s.messages.any fun m => containsCI m.content k) = true
    · simp only [searchLoop, if_pos hm, List.mem_cons, ih]
      constructor
      · rintro (h | ⟨j, s', hj, hi, hts, hms⟩)
        · simp only [Prod.mk.injEq] at h
          exact ⟨0, s, by simp, by simp [h.1], h.2, hm⟩
        · exact ⟨j + 1, s', by simpa using hj, by omega, hts, hms⟩
      · rintro ⟨j, s', hj, hi, hts, hms⟩
        cases j with
        | zero =>
          left
          rw [List.getElem?_cons_zero] at hj
          obtain rfl : s = s' := by simpa using hj
          simp [hi, hts]
        | succ j =>
          right
          exact ⟨j, s', by simpa using hj, by omega, hts, hms⟩
    · simp only [searchLoop, if_neg hm, ih]
      constructor
      · rintro ⟨j, s', hj, hi, hts, hms⟩
        exact ⟨j + 1, s', by simpa using hj, by omega, hts, hms⟩
      · rintro ⟨j, s', hj, hi, hts, hms⟩
        cases j with
        | zero =>
          rw [List.getElem?_cons_zero] at hj
          obtain rfl : s = s' := by simpa using hj
          exact absurd hms hm
        | succ j =>
          exact ⟨j, s', by simpa using hj, by omega, hts, hms⟩

lemma searchLoop_lb (k : String) (hist : List HistoryEntry) :
    ∀ (start : Nat) (p : Nat × String), p ∈ searchLoop k start hist → start ≤ p.1 := by
  induction hist with
  | nil =>
    intro start p hp
    simp [searchLoop] at hp
  | cons s rest ih =>
    intro start p hp
    by_cases hm : (s.messages.any fun m => containsCI m.content k) = true
    · simp only [searchLoop, if_pos hm, List.mem_cons] at hp
      rcases hp with h | h
      · simp [h]
      · exact le_trans (Nat.le_succ start) (ih (start + 1) p h)
    · simp only [searchLoop, if_neg hm] at hp
      exact le_trans (Nat.le_succ start) (ih (start + 1) p hp)

lemma searchLoop_pairwise (k : String) (hist : List HistoryEntry) :
    ∀ start : Nat,
      List.Pairwise (· < ·) ((searchLoop k start hist).map Prod.fst) := by
  induction hist with
  | nil =>
    intro start
    simp [searchLoop]
  | cons s rest ih =>
    intro start
    by_cases hm : (s.messages.any fun m => containsCI m.content k) = true
    · simp only [searchLoop, if_pos hm, List.map_cons]
      refine List.Pairwise.cons ?_ (ih (start + 1))
      intro x hx
      rcases List.mem_map.mp hx with ⟨p, hp, rfl⟩
      have := searchLoop_lb k rest (start + 1) p hp
      omega
    · simp only [searchLoop, if_neg hm]
      exact ih (start + 1)

/-! ### The claims -/

/-- Claim C3: for every finite fragment sequence with content deltas
`c1..cn`, the returned record has `content` equal to the concatenation of
`c1..cn` in arrival order and `total_chars` equal to the sum of their
lengths, and every non-empty delta is emitted to the display sink, in
order. -/
theorem content_concat_and_emission (msgsStr : String) (el : Rat)
    (cs : List Chunk) (probe : Except String (Option Usage)) :
    (get_streaming_response msgsStr el cs none probe).result
        = .ok (runStream msgsStr el cs probe)
    ∧ (runStream msgsStr el cs probe).content = concatStrs (contentDeltas cs)
    ∧ (runStream msgsStr el cs probe).total_chars
        = ((contentDeltas cs).map String.length).sum
    ∧ (get_streaming_response msgsStr el cs none probe).emitted
        = ((contentDeltas cs).filter fun s => s ≠ "") := by
  refine ⟨rfl, ?_, ?_, ?_⟩
  · rw [runStream_content, accumChunks_content]
  · rw [runStream_total_chars, accumChunks_total_chars]
  · exact accumChunks_emitted cs

/-- Claim C9: in every completion path of the streaming call, a zero
elapsed time yields `print_rate = 0` (the record's char rate) and
`token_rate = 0`; the guards prevent any division by zero. -/
theorem zero_elapsed_zero_rates (msgsStr : String) (cs : List Chunk)
    (probe : Except String (Option Usage)) :
    (runStream msgsStr 0 cs probe).print_rate = 0
    ∧ (runStream msgsStr 0 cs probe).token_rate = 0 := by
  rcases hu : streamUsage cs with _ | u <;>
    simp only [runStream, hu] <;>
    constructor <;> (split <;> (try split) <;> simp)

/-- Claim C4: appending a conversation of at least two role/content
messages and then listing yields a store one entry longer whose last
entry's messages are the (role, content) pairs of the conversation in
original order, system message included. -/
theorem append_then_list_roundtrip (st : FileState) (ts : String)
    (msgs : List HMessage) (h : 2 ≤ msgs.length) :
    (load_history (save_session ts msgs st)).length
        = (load_history st).length + 1
    ∧ (load_history (save_session ts msgs st)).getLast?
        = some ⟨ts, msgs.map fun m => ⟨m.role, m.content⟩⟩ := by
  have h1 : ¬ msgs.length ≤ 1 := by omega
  constructor
  · simp [save_session, h1, load_history, readHistory]
  · simp [save_session, h1, load_history, readHistory, simplifyMessages,
      List.getLast?_concat]

/-- Witness for claim C4 at a concrete two-message conversation over a
concrete store. -/
theorem append_then_list_roundtrip_witness :
    2 ≤ ([⟨"system", "sys"⟩, ⟨"user", "hi"⟩] : List HMessage).length
    ∧ (load_history (save_session "t1" [⟨"system", "sys"⟩, ⟨"user", "hi"⟩]
          (.entries [⟨"t0", [⟨"user", "old"⟩]⟩]))).length
        = (load_history (.entries [⟨"t0", [⟨"user", "old"⟩]⟩])).length + 1
    ∧ (load_history (save_session "t1" [⟨"system", "sys"⟩, ⟨"user", "hi"⟩]
          (.entries [⟨"t0", [⟨"user", "old"⟩]⟩]))).getLast?
        = some ⟨"t1", [⟨"system", "sys"⟩, ⟨"user", "hi"⟩]⟩ := by
  have h := append_then_list_roundtrip (.entries [⟨"t0", [⟨"user", "old"⟩]⟩])
    "t1" [⟨"system", "sys"⟩, ⟨"user", "hi"⟩] (by decide)
  exact ⟨by decide, h.1, h.2⟩

/-- Claim C5: listing the history never fails; a missing file or one whose
contents fail to parse yields the empty sequence, and otherwise entries come
back in append order (the stored order, which appending extends at the
end). -/
theorem load_history_never_fails :
    load_history .missing = []
    ∧ load_history .corrupt = []
    ∧ (∀ l, load_history (.entries l) = l)
    ∧ (∀ st ts msgs, ¬ msgs.length ≤ 1 →
        load_history (save_session ts msgs st)
          = load_history st ++ [⟨ts, simplifyMessages msgs⟩]) := by
  refine ⟨rfl, rfl, fun l => rfl, fun st ts msgs h => ?_⟩
  simp [save_session, h, load_history, readHistory]

/-- Witness for claim C5: the ordering clause applied to a concrete store
and conversation. -/
theorem load_history_never_fails_witness :
    ¬ ([⟨"system", "s"⟩, ⟨"user", "u"⟩] : List HMessage).length ≤ 1
    ∧ load_history (save_session "t" [⟨"system", "s"⟩, ⟨"user", "u"⟩] .missing)
        = load_history .missing
            ++ [⟨"t", simplifyMessages [⟨"system", "s"⟩, ⟨"user", "u"⟩]⟩] :=
  ⟨by decide, load_history_never_fails.2.2.2 .missing "t"
    [⟨"system", "s"⟩, ⟨"user", "u"⟩] (by decide)⟩

/-- Claim C6: when the stream carried no usage block and the fallback probe
fails, the estimator sets `prompt_tokens` to a quarter of the serialized
conversation length, `completion_tokens` to a quarter of the response
content length, and `total_tokens` to their sum. -/
theorem full_estimation_fallback (msgsStr : String) (el : Rat)
    (cs : List Chunk) (e : String) (h : streamUsage cs = none) :
    (runStream msgsStr el cs (.error e)).prompt_tokens = msgsStr.length / 4
    ∧ (runStream msgsStr el cs (.error e)).completion_tokens
        = (runStream msgsStr el cs (.error e)).content.length / 4
    ∧ (runStream msgsStr el cs (.error e)).total_tokens
        = (runStream msgsStr el cs (.error e)).prompt_tokens
          + (runStream msgsStr el cs (.error e)).completion_tokens := by
  have h0 : adoptedTotal cs = 0 := by simp [adoptedTotal, h]
  have hp := runStream_probe_error msgsStr el cs e h0
  have hc := runStream_content msgsStr el cs (.error e)
  exact ⟨hp.1, by rw [hp.2.1, hc], by rw [hp.2.2, hp.1, hp.2.1]⟩

set_option maxRecDepth 20000 in
/-- Witness for claim C6: a serialized conversation of 400 characters and a
streamed response of 80 characters give `prompt_tokens = 100`,
`completion_tokens = 20`, `total_tokens = 120`. -/
theorem full_estimation_fallback_witness :
    streamUsage [⟨[⟨some (String.mk (List.replicate 80 'b'))⟩], none⟩] = none
    ∧ (runStream (String.mk (List.replicate 400 'a')) 1
        [⟨[⟨some (String.mk (List.replicate 80 'b'))⟩], none⟩]
        (.error "boom")).prompt_tokens = 100
    ∧ (runStream (String.mk (List.replicate 400 'a')) 1
        [⟨[⟨some (String.mk (List.replicate 80 'b'))⟩], none⟩]
        (.error "boom")).completion_tokens = 20
    ∧ (runStream (String.mk (List.replicate 400 'a')) 1
        [⟨[⟨some (String.mk (List.replicate 80 'b'))⟩], none⟩]
        (.error "boom")).total_tokens = 120 := by
  have h := full_estimation_fallback (String.mk (List.replicate 400 'a')) 1
    [⟨[⟨some (String.mk (List.replicate 80 'b'))⟩], none⟩] "boom" rfl
  refine ⟨rfl, ?_, ?_, ?_⟩
  · rw [h.1]
    decide
  · rw [h.2.1]
    decide
  · rw [h.2.2, h.1, h.2.1]
    decide

/-- Claim C7: when the stream finished with `total_tokens = 0` and the
probe succeeds reporting usage, the record adopts the probe's
`prompt_tokens` verbatim, estimates `completion_tokens` as a quarter of the
accumulated content length, and sets `total_tokens` to their sum. -/
theorem probe_prompt_adopted (msgsStr : String) (el : Rat) (cs : List Chunk)
    (pu : Usage) (h : adoptedTotal cs = 0) :
    (runStream msgsStr el cs (.ok (some pu))).prompt_tokens = pu.prompt_tokens
    ∧ (runStream msgsStr el cs (.ok (some pu))).completion_tokens
        = (runStream msgsStr el cs (.ok (some pu))).content.length / 4
    ∧ (runStream msgsStr el cs (.ok (some pu))).total_tokens
        = (runStream msgsStr el cs (.ok (some pu))).prompt_tokens
          + (runStream msgsStr el cs (.ok (some pu))).completion_tokens := by
  have hp := runStream_probe_ok_some msgsStr el cs pu h
  have hc := runStream_content msgsStr el cs (.ok (some pu))
  exact ⟨hp.1, by rw [hp.2.1, hc], by rw [hp.2.2, hp.1, hp.2.1]⟩

/-- Witness for claim C7: an 8-character streamed reply without stream
usage, with a probe reporting 50 prompt tokens (its completion count 7 is
ignored), yields counts (50, 2, 52). -/
theorem probe_prompt_adopted_witness :
    adoptedTotal [⟨[⟨some "hello!!!"⟩], none⟩] = 0
    ∧ (runStream "mm" 1 [⟨[⟨some "hello!!!"⟩], none⟩]
        (.ok (some ⟨50, 7, 57⟩))).prompt_tokens = 50
    ∧ (runStream "mm" 1 [⟨[⟨some "hello!!!"⟩], none⟩]
        (.ok (some ⟨50, 7, 57⟩))).completion_tokens = 2
    ∧ (runStream "mm" 1 [⟨[⟨some "hello!!!"⟩], none⟩]
        (.ok (some ⟨50, 7, 57⟩))).total_tokens = 52 := by
  have h := probe_prompt_adopted "mm" 1 [⟨[⟨some "hello!!!"⟩], none⟩]
    ⟨50, 7, 57⟩ rfl
  refine ⟨rfl, h.1, ?_, ?_⟩
  · rw [h.2.1]
    decide
  · rw [h.2.2, h.1, h.2.1]
    decide

/-- Claim C2: a failure raised while opening or consuming the primary
stream propagates to the caller (the result is that error, never a
response), while a failing fallback probe never surfaces: the call still
returns a record, whose counts degrade to the paired character-heuristic
estimates whenever the probe path was reached. -/
theorem stream_error_fatal_probe_error_recovered (msgsStr : String)
    (el : Rat) (cs : List Chunk) (e pe : String)
    (probe : Except String (Option Usage)) :
    (get_streaming_response msgsStr el cs (some e) probe).result = .error e
    ∧ (get_streaming_response msgsStr el cs none (.error pe)).result
        = .ok (runStream msgsStr el cs (.error pe))
    ∧ (adoptedTotal cs = 0 →
        (runStream msgsStr el cs (.error pe)).prompt_tokens = msgsStr.length / 4
        ∧ (runStream msgsStr el cs (.error pe)).completion_tokens
            = (runStream msgsStr el cs (.error pe)).content.length / 4) := by
  refine ⟨rfl, rfl, fun h => ?_⟩
  have hp := runStream_probe_error msgsStr el cs pe h
  exact ⟨hp.1, by rw [hp.2.1, runStream_content]⟩

/-- Witness for claim C2: a concrete stream error propagates unchanged, and
a concrete probe error degrades to the paired estimate. -/
theorem stream_error_fatal_probe_error_recovered_witness :
    (get_streaming_response "mmmmmmmm" 1 [] (some "boom")
        (.error "p")).result = .error "boom"
    ∧ (get_streaming_response "mmmmmmmm" 1 [] none (.error "p")).result
        = .ok (runStream "mmmmmmmm" 1 [] (.error "p"))
    ∧ (runStream "mmmmmmmm" 1 [] (.error "p")).prompt_tokens = 2
    ∧ (runStream "mmmmmmmm" 1 [] (.error "p")).completion_tokens = 0 := by
  have h := stream_error_fatal_probe_error_recovered "mmmmmmmm" 1 [] "boom"
    "p" (.error "p")
  have h2 := h.2.2 rfl
  refine ⟨h.1, h.2.1, ?_, ?_⟩
  · rw [h2.1]
    decide
  · rw [h2.2]
    decide

/-- Counterexample to claim C1: the code adopts a terminal usage block
verbatim, so the block (prompt 1, completion 1, total 3) yields a record
with `total_tokens = 3` but `prompt_tokens + completion_tokens = 2`. -/
theorem usage_sum_invariant_counterexample :
    streamUsage [⟨[], some ⟨1, 1, 3⟩⟩] = some ⟨1, 1, 3⟩
    ∧ (runStream "" 1 [⟨[], some ⟨1, 1, 3⟩⟩] (.ok none)).total_tokens = 3
    ∧ (runStream "" 1 [⟨[], some ⟨1, 1, 3⟩⟩] (.ok none)).prompt_tokens = 1
    ∧ (runStream "" 1 [⟨[], some ⟨1, 1, 3⟩⟩] (.ok none)).completion_tokens = 1
    ∧ (runStream "" 1 [⟨[], some ⟨1, 1, 3⟩⟩] (.ok none)).total_tokens
        ≠ (runStream "" 1 [⟨[], some ⟨1, 1, 3⟩⟩] (.ok none)).prompt_tokens
          + (runStream "" 1 [⟨[], some ⟨1, 1, 3⟩⟩] (.ok none)).completion_tokens := by
  refine ⟨rfl, ?_, ?_, ?_, ?_⟩ <;> decide

/-- Claim C1 as amended: when the terminal usage block itself satisfies
`total_tokens = prompt_tokens + completion_tokens`, the resulting record
satisfies the same sum invariant, and whenever the block's total is nonzero
the three counts are adopted verbatim. -/
theorem usage_sum_invariant_amended (msgsStr : String) (el : Rat)
    (cs : List Chunk) (probe : Except String (Option Usage)) (u : Usage)
    (h1 : streamUsage cs = some u)
    (h2 : u.total_tokens = u.prompt_tokens + u.completion_tokens) :
    (runStream msgsStr el cs probe).total_tokens
        = (runStream msgsStr el cs probe).prompt_tokens
          + (runStream msgsStr el cs probe).completion_tokens
    ∧ (u.total_tokens ≠ 0 →
        (runStream msgsStr el cs probe).prompt_tokens = u.prompt_tokens
        ∧ (runStream msgsStr el cs probe).completion_tokens = u.completion_tokens
        ∧ (runStream msgsStr el cs probe).total_tokens = u.total_tokens) := by
  by_cases ht : u.total_tokens = 0
  · have h0 : adoptedTotal cs = 0 := by simp [adoptedTotal, h1, ht]
    have hpz : u.prompt_tokens = 0 ∧ u.completion_tokens = 0 := by omega
    refine ⟨?_, fun hne => absurd ht hne⟩
    rcases probe with pe | op
    · have hr := runStream_probe_error msgsStr el cs pe h0
      rw [hr.1, hr.2.1, hr.2.2]
    · rcases op with _ | pu
      · have hr := runStream_probe_ok_none msgsStr el cs u h1 ht
        rw [hr.1, hr.2.1, hr.2.2, ht, hpz.1, hpz.2]
      · have hr := runStream_probe_ok_some msgsStr el cs pu h0
        rw [hr.1, hr.2.1, hr.2.2]
  · have hr := runStream_usage_ne_zero msgsStr el cs probe u h1 ht
    exact ⟨by rw [hr.1, hr.2.1, hr.2.2, h2], fun _ => hr⟩

/-- Witness for the amended claim C1 at the concrete consistent usage block
(2, 3, 5). -/
theorem usage_sum_invariant_amended_witness :
    streamUsage [⟨[], some ⟨2, 3, 5⟩⟩] = some ⟨2, 3, 5⟩
    ∧ (5 : Nat) = 2 + 3
    ∧ (runStream "" 1 [⟨[], some ⟨2, 3, 5⟩⟩] (.ok none)).total_tokens
        = (runStream "" 1 [⟨[], some ⟨2, 3, 5⟩⟩] (.ok none)).prompt_tokens
          + (runStream "" 1 [⟨[], some ⟨2, 3, 5⟩⟩] (.ok none)).completion_tokens
    ∧ (runStream "" 1 [⟨[], some ⟨2, 3, 5⟩⟩] (.ok none)).prompt_tokens = 2 := by
  have h := usage_sum_invariant_amended "" 1 [⟨[], some ⟨2, 3, 5⟩⟩] (.ok none)
    ⟨2, 3, 5⟩ rfl (by decide)
  exact ⟨rfl, by decide, h.1, (h.2 (by decide)).1⟩

/-- Claim C8: `search_history` returns the (index, timestamp) pairs of
exactly the entries with a message whose content contains the keyword
case-insensitively, each matching entry exactly once with indices strictly
increasing (append order preserved), and the empty keyword matches exactly
the entries with at least one message. -/
theorem search_history_characterization (k : String)
    (hist : List HistoryEntry) :
    (∀ i ts, ((i, ts) ∈ search_history k hist) ↔
        ∃ s, hist[i]? = some s ∧ ts = s.timestamp
          ∧ (s.messages.any fun m => containsCI m.content k) = true)
    ∧ List.Pairwise (· < ·) ((search_history k hist).map Prod.fst)
    ∧ (∀ i ts, ((i, ts) ∈ search_history "" hist) ↔
        ∃ s, hist[i]? = some s ∧ ts = s.timestamp ∧ s.messages ≠ []) := by
  refine ⟨fun i ts => ?_, searchLoop_pairwise k hist 0, fun i ts => ?_⟩
  · rw [search_history, searchLoop_mem]
    constructor
    · rintro ⟨j, s, hj, hi, hts, hms⟩
      rw [Nat.zero_add] at hi
      subst hi
      exact ⟨s, hj, hts, hms⟩
    · rintro ⟨s, hj, hts, hms⟩
      exact ⟨i, s, hj, (Nat.zero_add i).symm, hts, hms⟩
  · rw [search_history, searchLoop_mem]
    constructor
    · rintro ⟨j, s, hj, hi, hts, hms⟩
      rw [Nat.zero_add] at hi
      subst hi
      exact ⟨s, hj, hts, (any_containsCI_empty _).mp hms⟩
    · rintro ⟨s, hj, hts, hne⟩
      exact ⟨i, s, hj, (Nat.zero_add i).symm, hts,
        (any_containsCI_empty _).mpr hne⟩

/-- Witness for claim C8: over a concrete three-entry history the keyword
"HE" matches exactly the entry containing "hEllo", and the empty keyword
matches the entries that have messages. -/
theorem search_history_characterization_witness :
    ((1, "t2") ∈ search_history "HE"
        [⟨"t1", [⟨"system", "x"⟩]⟩,
         ⟨"t2", [⟨"user", "hEllo"⟩, ⟨"assistant", "hex"⟩]⟩,
         ⟨"t3", []⟩])
    ∧ ((0, "t1") ∈ search_history ""
        [⟨"t1", [⟨"system", "x"⟩]⟩,
         ⟨"t2", [⟨"user", "hEllo"⟩, ⟨"assistant", "hex"⟩]⟩,
         ⟨"t3", []⟩])
    ∧ ¬ ((2, "t3") ∈ search_history ""
        [⟨"t1", [⟨"system", "x"⟩]⟩,
         ⟨"t2", [⟨"user", "hEllo"⟩, ⟨"assistant", "hex"⟩]⟩,
         ⟨"t3", []⟩]) := by
  have h := search_history_characterization "HE"
    [⟨"t1", [⟨"system", "x"⟩]⟩,
     ⟨"t2", [⟨"user", "hEllo"⟩, ⟨"assistant", "hex"⟩]⟩,
     ⟨"t3", []⟩]
  refine ⟨(h.1 1 "t2").mpr ?_, (h.2.2 0 "t1").mpr ?_, fun hm => ?_⟩
  · exact ⟨⟨"t2", [⟨"user", "hEllo"⟩, ⟨"assistant", "hex"⟩]⟩,
      by decide, rfl, by decide⟩
  · exact ⟨⟨"t1", [⟨"system", "x"⟩]⟩, by decide, rfl, by decide⟩
  · obtain ⟨s, hs, -, hne⟩ := (h.2.2 2 "t3").mp hm
    obtain rfl : (⟨"t3", []⟩ : HistoryEntry) = s := by simpa using hs
    exact hne rfl

/-- Counterexample to claim C10: with a last usage block (5, 3, 0) the
probe is issued, but when the probe succeeds without reporting a usage
block the stream's counts are kept — not overwritten by probe or estimator
values — and the outcome differs from the same run with usage absent. -/
theorem zero_total_usage_counterexample :
    streamUsage [⟨[], some ⟨5, 3, 0⟩⟩] = some ⟨5, 3, 0⟩
    ∧ (get_streaming_response "" 1 [⟨[], some ⟨5, 3, 0⟩⟩] none
        (.ok none)).probeCalled = true
    ∧ (runStream "" 1 [⟨[], some ⟨5, 3, 0⟩⟩] (.ok none)).prompt_tokens = 5
    ∧ (runStream "" 1 [⟨[], some ⟨5, 3, 0⟩⟩] (.ok none)).completion_tokens = 3
    ∧ (runStream "" 1 [⟨[], none⟩] (.ok none)).prompt_tokens = 0
    ∧ runStream "" 1 [⟨[], some ⟨5, 3, 0⟩⟩] (.ok none)
        ≠ runStream "" 1 [⟨[], none⟩] (.ok none) := by
  refine ⟨rfl, rfl, ?_, ?_, ?_, ?_⟩ <;> decide

lemma streamUsage_concat (init : List Chunk) (lc : Chunk) :
    streamUsage (init ++ [lc]) = lc.usage := by
  simp [streamUsage, List.getLast?_concat]

/-- Claim C10 as amended: a terminal usage block with `total_tokens = 0`
still triggers the fallback probe; the counts are overwritten by the
probe's values when it reports usage and by the estimator's when it fails
(but kept when the probe succeeds without usage); and an all-zero usage
block is indistinguishable from absent usage under every probe outcome. -/
theorem zero_total_usage_amended (msgsStr : String) (el : Rat)
    (init : List Chunk) (lc : Chunk) (u : Usage)
    (probe : Except String (Option Usage))
    (h1 : lc.usage = some u) (h2 : u.total_tokens = 0) :
    (get_streaming_response msgsStr el (init ++ [lc]) none probe).probeCalled
        = true
    ∧ (∀ pu, probe = .ok (some pu) →
        (runStream msgsStr el (init ++ [lc]) probe).prompt_tokens
            = pu.prompt_tokens
        ∧ (runStream msgsStr el (init ++ [lc]) probe).completion_tokens
            = (runStream msgsStr el (init ++ [lc]) probe).content.length / 4)
    ∧ (∀ e, probe = .error e →
        (runStream msgsStr el (init ++ [lc]) probe).prompt_tokens
            = msgsStr.length / 4
        ∧ (runStream msgsStr el (init ++ [lc]) probe).completion_tokens
            = (runStream msgsStr el (init ++ [lc]) probe).content.length / 4)
    ∧ (u = ⟨0, 0, 0⟩ →
        runStream msgsStr el (init ++ [lc]) probe
          = runStream msgsStr el (init ++ [⟨lc.choices, none⟩]) probe) := by
  have hu : streamUsage (init ++ [lc]) = some u := by
    rw [streamUsage_concat, h1]
  have h0 : adoptedTotal (init ++ [lc]) = 0 := by
    simp [adoptedTotal, hu, h2]
  refine ⟨?_, ?_, ?_, ?_⟩
  · simp [get_streaming_response, h0]
  · rintro pu rfl
    have hr := runStream_probe_ok_some msgsStr el (init ++ [lc]) pu h0
    exact ⟨hr.1, by rw [hr.2.1, runStream_content]⟩
  · rintro e rfl
    have hr := runStream_probe_error msgsStr el (init ++ [lc]) e h0
    exact ⟨hr.1, by rw [hr.2.1, runStream_content]⟩
  · rintro rfl
    have hu' : streamUsage (init ++ [⟨lc.choices, none⟩]) = none :=
      streamUsage_concat init ⟨lc.choices, none⟩
    have hacc : accumChunks (init ++ [lc])
        = accumChunks (init ++ [⟨lc.choices, none⟩]) := by
      rw [accumChunks, accumChunks, List.foldl_append, List.foldl_append]
      rfl
    simp only [runStream, hu, hu', hacc, Nat.cast_zero, zero_div, ite_self]

/-- Witness for the amended claim C10: an 8-character reply whose last
chunk carries the all-zero usage block still probes, adopts the probe's 9
prompt tokens with the 2-token character estimate, and is indistinguishable
from the same stream without the usage block. -/
theorem zero_total_usage_amended_witness :
    (⟨[⟨some "abcdefgh"⟩], some ⟨0, 0, 0⟩⟩ : Chunk).usage = some ⟨0, 0, 0⟩
    ∧ (get_streaming_response "mm" 1 [⟨[⟨some "abcdefgh"⟩], some ⟨0, 0, 0⟩⟩]
        none (.ok (some ⟨9, 1, 10⟩))).probeCalled = true
    ∧ (runStream "mm" 1 [⟨[⟨some "abcdefgh"⟩], some ⟨0, 0, 0⟩⟩]
        (.ok (some ⟨9, 1, 10⟩))).prompt_tokens = 9
    ∧ (runStream "mm" 1 [⟨[⟨some "abcdefgh"⟩], some ⟨0, 0, 0⟩⟩]
        (.ok (some ⟨9, 1, 10⟩))).completion_tokens = 2
    ∧ runStream "mm" 1 [⟨[⟨some "abcdefgh"⟩], some ⟨0, 0, 0⟩⟩]
        (.ok (some ⟨9, 1, 10⟩))
      = runStream "mm" 1 [⟨[⟨some "abcdefgh"⟩], none⟩]
        (.ok (some ⟨9, 1, 10⟩)) := by
  have h := zero_total_usage_amended "mm" 1 []
    ⟨[⟨some "abcdefgh"⟩], some ⟨0, 0, 0⟩⟩ ⟨0, 0, 0⟩
    (.ok (some ⟨9, 1, 10⟩)) rfl rfl
  have h2 := h.2.1 ⟨9, 1, 10⟩ rfl
  simp only [List.nil_append] at h h2
  refine ⟨rfl, h.1, h2.1, ?_, h.2.2.2 trivial⟩
  rw [h2.2]
  decide

end AzureChat
